import Mathlib

/-!
Shallow embedding of the core of the `twilight` Discord library slice:
the in-memory cache event application (`cache/in-memory/src/updates.rs`),
the rate-limit header parsing (`http/src/ratelimiting/headers.rs`), the
bucket snapshot time computation (`http/src/ratelimiting/mod.rs`), and the
cluster builder token normalisation (`gateway/src/cluster/builder.rs`).

Rust's opaque 64-bit ids are modelled as `Nat`.  `DashMap<K, V>` tables are
modelled as functions `K → Option V` (or `K → Bool` when only row presence
matters to the verified properties), `HashSet<T>`/`BTreeSet<T>` as duplicate
free `List Nat`, and the per-channel `BTreeMap<MessageId, Message>` as a
key-sorted association list, so that `iter().next_back()` is the last entry.
-/

namespace Twilight

/-! ### Map / set primitives -/

/-- Model of `HashSet::insert`: a set has no duplicate elements. -/
def setInsert (x : Nat) (l : List Nat) : List Nat :=
  if l.contains x then l else x :: l

/-- Model of `HashSet::remove` / `BTreeSet::remove`. -/
def setRemove (x : Nat) (l : List Nat) : List Nat :=
  l.filter (fun y => y != x)

/-- Point update of a `Nat`-keyed table. -/
def updF {β : Type} (k : Nat) (v : β) (f : Nat → β) : Nat → β :=
  fun x => if x = k then v else f x

/-- Point update of a composite-keyed table. -/
def updF2 {β : Type} (k : Nat × Nat) (v : β) (f : Nat × Nat → β) : Nat × Nat → β :=
  fun x => if x = k then v else f x

/-- Model of `BTreeMap::insert` on a key-sorted association list: replaces the value
at an existing key, otherwise inserts at the ordered position. -/
def btInsert {α : Type} (k : Nat) (v : α) : List (Nat × α) → List (Nat × α)
  | [] => [(k, v)]
  | (k', v') :: t =>
    if k < k' then (k, v) :: (k', v') :: t
    else if k = k' then (k, v) :: t
    else (k', v') :: btInsert k v t

/-- Model of `BTreeMap::remove`: drops the entry with the given key, if present. -/
def btRemove {α : Type} (k : Nat) : List (Nat × α) → List (Nat × α)
  | [] => []
  | (k', v') :: t => if k = k' then t else (k', v') :: btRemove k t

/-- Model of `BTreeMap::get`. -/
def btLookup {α : Type} (k : Nat) : List (Nat × α) → Option α
  | [] => none
  | (k', v') :: t => if k = k' then some v' else btLookup k t

/-- Model of `BTreeMap::get_mut` followed by an in-place mutation of the value. -/
def btModify {α : Type} (k : Nat) (f : α → α) : List (Nat × α) → List (Nat × α)
  | [] => []
  | (k', v') :: t => if k = k' then (k', f v') :: t else (k', v') :: btModify k f t

/-- The key sequence of an association-list map. -/
def btKeys {α : Type} (l : List (Nat × α)) : List Nat :=
  l.map Prod.fst

/-! ### Messages and reactions (`twilight_model::channel::message`) -/

/-- Model of `MessageReaction { count, emoji, me }`; the emoji is identified by its id. -/
structure MessageReaction where
  count : Nat
  emoji : Nat
  me : Bool
deriving DecidableEq, Repr

/-- The fields of a cached message that the verified events read or write:
`MessageUpdate` patches (`content`, `pinned`, `tts` stand for the patchable
payload) and the `reactions` list. -/
structure Message where
  content : String
  pinned : Bool
  tts : Bool
  reactions : List MessageReaction
deriving DecidableEq, Repr

/-- Mutate the first list element satisfying `p` (the effect of
`iter_mut().find(p)` followed by a mutation). -/
def modifyFirst {α : Type} (p : α → Bool) (f : α → α) : List α → List α
  | [] => []
  | x :: t => if p x then f x :: t else x :: modifyFirst p f t

/-- Model of `ReactionAdd` on a message's reactions list
(`updates.rs`, `impl UpdateCache for ReactionAdd`, lines 498-519):
if an entry with the emoji exists, set `me` when the adder is the current
user and the flag was clear, and increment the count; otherwise push a new
entry with count 1. -/
def reactionsAdd (cu : Option Nat) (u e : Nat) (l : List MessageReaction) :
    List MessageReaction :=
  if l.any (fun r => r.emoji == e) then
    modifyFirst (fun r => r.emoji == e)
      (fun r =>
        { r with
          me := if r.me = false ∧ cu = some u then true else r.me,
          count := r.count + 1 })
      l
  else
    l ++ [{ count := 1, emoji := e, me := decide (cu = some u) }]

/-- Model of `ReactionRemove` on a message's reactions list
(`updates.rs`, `impl UpdateCache for ReactionRemove`, lines 538-552):
clear `me` when the remover is the current user; then decrement the count
if it is above 1, otherwise retain away every entry with the emoji. -/
def reactionsRemove (cu : Option Nat) (u e : Nat) (l : List MessageReaction) :
    List MessageReaction :=
  match l.find? (fun r => r.emoji == e) with
  | none => l
  | some r =>
    if r.count > 1 then
      modifyFirst (fun r => r.emoji == e)
        (fun r =>
          { r with
            me := if r.me = true ∧ cu = some u then false else r.me,
            count := r.count - 1 })
        l
    else
      l.filter (fun r => !(r.emoji == e))

/-! ### Cache state, configuration and events -/

/-- The event kinds the verified claims exercise; each corresponds to a
distinct bit of the `EventType` bitset consulted by `guard`. -/
inductive EventKind
  | guildDelete
  | memberRemove
  | messageCreate
  | messageDelete
  | messageDeleteBulk
  | messageUpdate
  | reactionAdd
  | reactionRemove
  | reactionRemoveAll
  | voiceStateUpdate
deriving DecidableEq, Repr

/-- Cache configuration: the admitted event-type bitset and
`message_cache_size`. -/
structure Config where
  eventTypes : EventKind → Bool
  messageCacheSize : Nat

/-- Model of `fn guard(this, event_type)`: whether the configured filter admits the
event (`updates.rs` lines 11-13). -/
def guard (cfg : Config) (k : EventKind) : Bool :=
  cfg.eventTypes k

/-- The cache tables touched by the verified events.  Entity payloads that no
verified claim reads (guild, channel, role, emoji, member, presence and voice
state bodies) are modelled as row presence; the `users` table keeps the
reverse guild set of each user row. -/
structure CacheState where
  guilds : Nat → Bool
  channelsGuild : Nat → Bool
  guildChannels : Nat → Option (List Nat)
  emojis : Nat → Bool
  guildEmojis : Nat → Option (List Nat)
  roles : Nat → Bool
  guildRoles : Nat → Option (List Nat)
  members : Nat × Nat → Bool
  guildMembers : Nat → Option (List Nat)
  presences : Nat × Nat → Bool
  guildPresences : Nat → Option (List Nat)
  voiceStates : Nat × Nat → Bool
  voiceStateGuilds : Nat → Option (List Nat)
  messages : Nat → Option (List (Nat × Message))
  users : Nat → Option (List Nat)
  currentUser : Option Nat

/-- The cache of `InMemoryCache::new()`: every table empty. -/
def emptyCache : CacheState where
  guilds := fun _ => false
  channelsGuild := fun _ => false
  guildChannels := fun _ => none
  emojis := fun _ => false
  guildEmojis := fun _ => none
  roles := fun _ => false
  guildRoles := fun _ => none
  members := fun _ => false
  guildMembers := fun _ => none
  presences := fun _ => false
  guildPresences := fun _ => none
  voiceStates := fun _ => false
  voiceStateGuilds := fun _ => none
  messages := fun _ => none
  users := fun _ => none
  currentUser := none

/-- The decoded events the verified claims exercise.  `messageCreate` carries
the channel id, message id, author id, optional guild id, whether the payload
carries a partial member, and the message body. -/
inductive Event
  | guildDelete (id : Nat)
  | memberRemove (guildId userId : Nat)
  | messageCreate (channelId msgId author : Nat) (guildId : Option Nat)
      (hasMember : Bool) (msg : Message)
  | messageDelete (channelId id : Nat)
  | messageDeleteBulk (channelId : Nat) (ids : List Nat)
  | messageUpdate (channelId id : Nat) (content : Option String)
      (pinned : Option Bool) (tts : Option Bool)
  | reactionAdd (channelId msgId emoji userId : Nat)
  | reactionRemove (channelId msgId emoji userId : Nat)
  | reactionRemoveAll (channelId msgId : Nat)
  | voiceStateUpdate (guildId : Option Nat) (userId : Nat)

/-- Modelled from the spec: `cache_user` (its source is not in the slice;
§4.1.3 "intern the author as user", §3 "User ... carries a set of guild ids
the user is known in").  An existing user row gains the guild in its reverse
set; a missing row is inserted with the guild (when known) as its only
member. -/
def cache_user (uid : Nat) (gid : Option Nat) (users : Nat → Option (List Nat)) :
    Nat → Option (List Nat) :=
  match users uid, gid with
  | some gs, some g => updF uid (some (setInsert g gs)) users
  | some _, none => users
  | none, some g => updF uid (some [g]) users
  | none, none => updF uid (some []) users

/-- Modelled from the spec: `cache_borrowed_partial_member` (source not in the
slice; §4.1.3 MessageCreate "if the payload carries a partial member, merge
it").  The member row for (guild, author) is made present. -/
def cache_partial_member (g author : Nat) (members : Nat × Nat → Bool) :
    Nat × Nat → Bool :=
  updF2 (g, author) true members

/-- Modelled from the spec: `cache_voice_state` (source not in the slice;
§4.1.3 VoiceStateUpdate "Upsert voice state; maintain guild→voice-states").
With no guild id the event caches nothing guild-scoped. -/
def cache_voice_state (gid : Option Nat) (u : Nat) (s : CacheState) : CacheState :=
  match gid with
  | none => s
  | some g =>
    { s with
      voiceStates := updF2 (g, u) true s.voiceStates,
      voiceStateGuilds :=
        (updF g (some (setInsert u ((s.voiceStateGuilds g).getD []))) s.voiceStateGuilds) }

/-- Model of `impl UpdateCache for GuildDelete` (`updates.rs` lines 188-227): remove
the guild row; for channels, emojis and roles remove the guild index entry
and every referenced base row; remove the guild→voice-state index entry (the
voice-state base rows are not touched); remove the member and presence rows
referenced by their index entries together with the entries. -/
def applyGuildDelete (cfg : Config) (g : Nat) (s : CacheState) : CacheState :=
  if guard cfg .guildDelete then
    let s := { s with guilds := fun i => if i = g then false else s.guilds i }
    let s :=
      match s.guildChannels g with
      | none => s
      | some ids =>
        { s with
          guildChannels := updF g none s.guildChannels,
          channelsGuild := fun c => if ids.contains c then false else s.channelsGuild c }
    let s :=
      match s.guildEmojis g with
      | none => s
      | some ids =>
        { s with
          guildEmojis := updF g none s.guildEmojis,
          emojis := fun c => if ids.contains c then false else s.emojis c }
    let s :=
      match s.guildRoles g with
      | none => s
      | some ids =>
        { s with
          guildRoles := updF g none s.guildRoles,
          roles := fun c => if ids.contains c then false else s.roles c }
    let s := { s with voiceStateGuilds := updF g none s.voiceStateGuilds }
    let s :=
      match s.guildMembers g with
      | none => s
      | some ids =>
        { s with
          guildMembers := updF g none s.guildMembers,
          members := fun p => if p.1 = g ∧ ids.contains p.2 then false else s.members p }
    let s :=
      match s.guildPresences g with
      | none => s
      | some ids =>
        { s with
          guildPresences := updF g none s.guildPresences,
          presences := fun p => if p.1 = g ∧ ids.contains p.2 then false else s.presences p }
    s
  else s

/-- Model of `impl UpdateCache for MemberRemove` (`updates.rs` lines 313-342): remove
the member row and the guild→members index entry; then drop the guild from
the user's reverse set and, if the user row existed, conditionally remove it
when its set became empty (the two-phase `remove_if`). -/
def applyMemberRemove (cfg : Config) (g u : Nat) (s : CacheState) : CacheState :=
  if guard cfg .memberRemove then
    let s := { s with members := updF2 (g, u) false s.members }
    let s :=
      match s.guildMembers g with
      | none => s
      | some ms => { s with guildMembers := updF g (some (setRemove u ms)) s.guildMembers }
    match s.users u with
    | none => s
    | some gs =>
      let gs' := setRemove g gs
      if gs'.isEmpty then { s with users := updF u none s.users }
      else { s with users := updF u (some gs') s.users }
  else s

/-- Model of `impl UpdateCache for MessageCreate` (`updates.rs` lines 362-384): obtain
the channel's message map (creating it empty); when its length exceeds
`message_cache_size`, remove the entry returned by `iter().next_back()` (the
greatest key); insert the new message; intern the author as a user; when a
partial member and a guild id are present, merge the member. -/
def applyMessageCreate (cfg : Config) (c mid author : Nat) (gid : Option Nat)
    (hasMember : Bool) (msg : Message) (s : CacheState) : CacheState :=
  if guard cfg .messageCreate then
    let chm := (s.messages c).getD []
    let chm :=
      if chm.length > cfg.messageCacheSize then
        match (btKeys chm).getLast? with
        | some k => btRemove k chm
        | none => chm
      else chm
    let chm := btInsert mid msg chm
    let s := { s with messages := updF c (some chm) s.messages,
                      users := cache_user author gid s.users }
    match hasMember, gid with
    | true, some g => { s with members := cache_partial_member g author s.members }
    | _, _ => s
  else s

/-- Model of `impl UpdateCache for MessageDelete` (`updates.rs` lines 386-395): the
channel map is materialised by `entry().or_default()` even when absent, then
the id is removed from it. -/
def applyMessageDelete (cfg : Config) (c mid : Nat) (s : CacheState) : CacheState :=
  if guard cfg .messageDelete then
    { s with messages := updF c (some (btRemove mid ((s.messages c).getD []))) s.messages }
  else s

/-- Model of `impl UpdateCache for MessageDeleteBulk` (`updates.rs` lines 397-409). -/
def applyMessageDeleteBulk (cfg : Config) (c : Nat) (ids : List Nat) (s : CacheState) :
    CacheState :=
  if guard cfg .messageDeleteBulk then
    { s with messages :=
        (updF c (some (ids.foldl (fun m i => btRemove i m) ((s.messages c).getD []))) s.messages) }
  else s

/-- Model of `impl UpdateCache for MessageUpdate` (`updates.rs` lines 411-462): the
channel map is materialised; when the message is present each payload field
that is `Some` is patched in place. -/
def applyMessageUpdate (cfg : Config) (c mid : Nat) (content : Option String)
    (pinned : Option Bool) (tts : Option Bool) (s : CacheState) : CacheState :=
  if guard cfg .messageUpdate then
    let chm := (s.messages c).getD []
    let chm :=
      match btLookup mid chm with
      | none => chm
      | some _ =>
        btModify mid
          (fun m =>
            let m := match content with | none => m | some v => { m with content := v }
            let m := match pinned with | none => m | some v => { m with pinned := v }
            match tts with | none => m | some v => { m with tts := v })
          chm
    { s with messages := updF c (some chm) s.messages }
  else s

/-- Model of `impl UpdateCache for ReactionAdd` (`updates.rs` lines 483-521): the
channel map is materialised; when the message is absent nothing further
happens; otherwise the reactions list is updated with the current user read
from the cache. -/
def applyReactionAdd (cfg : Config) (c mid e u : Nat) (s : CacheState) : CacheState :=
  if guard cfg .reactionAdd then
    let chm := (s.messages c).getD []
    let chm :=
      match btLookup mid chm with
      | none => chm
      | some _ =>
        btModify mid
          (fun m => { m with reactions := reactionsAdd s.currentUser u e m.reactions }) chm
    { s with messages := updF c (some chm) s.messages }
  else s

/-- Model of `impl UpdateCache for ReactionRemove` (`updates.rs` lines 523-554). -/
def applyReactionRemove (cfg : Config) (c mid e u : Nat) (s : CacheState) : CacheState :=
  if guard cfg .reactionRemove then
    let chm := (s.messages c).getD []
    let chm :=
      match btLookup mid chm with
      | none => chm
      | some _ =>
        btModify mid
          (fun m => { m with reactions := reactionsRemove s.currentUser u e m.reactions }) chm
    { s with messages := updF c (some chm) s.messages }
  else s

/-- Model of `impl UpdateCache for ReactionRemoveAll` (`updates.rs` lines 556-572). -/
def applyReactionRemoveAll (cfg : Config) (c mid : Nat) (s : CacheState) : CacheState :=
  if guard cfg .reactionRemoveAll then
    let chm := (s.messages c).getD []
    let chm :=
      match btLookup mid chm with
      | none => chm
      | some _ => btModify mid (fun m => { m with reactions := [] }) chm
    { s with messages := updF c (some chm) s.messages }
  else s

/-- Model of `impl UpdateCache for VoiceStateUpdate` (`updates.rs` lines 661-669),
delegating to the spec-modelled `cache_voice_state`. -/
def applyVoiceStateUpdate (cfg : Config) (gid : Option Nat) (u : Nat) (s : CacheState) :
    CacheState :=
  if guard cfg .voiceStateUpdate then cache_voice_state gid u s else s

/-- Model of `impl UpdateCache for Event`: dispatch one decoded event. -/
def update (cfg : Config) (e : Event) (s : CacheState) : CacheState :=
  match e with
  | .guildDelete g => applyGuildDelete cfg g s
  | .memberRemove g u => applyMemberRemove cfg g u s
  | .messageCreate c mid author gid hasMember msg =>
    applyMessageCreate cfg c mid author gid hasMember msg s
  | .messageDelete c mid => applyMessageDelete cfg c mid s
  | .messageDeleteBulk c ids => applyMessageDeleteBulk cfg c ids s
  | .messageUpdate c mid content pinned tts => applyMessageUpdate cfg c mid content pinned tts s
  | .reactionAdd c mid e u => applyReactionAdd cfg c mid e u s
  | .reactionRemove c mid e u => applyReactionRemove cfg c mid e u s
  | .reactionRemoveAll c mid => applyReactionRemoveAll cfg c mid s
  | .voiceStateUpdate gid u => applyVoiceStateUpdate cfg gid u s

/-! ### Rate-limit response header parsing (`http/src/ratelimiting/headers.rs`) -/

/-- The parse outcomes of one raw header value: `str` is the result of
`HeaderValue::to_str` (`none` when the bytes are not valid UTF-8), and
`int` / `float` / `bool` are the results of parsing that text as `u64`,
`f64` and `bool`.  The float value is idealised as a rational (see C7). -/
structure HVal where
  str : Option String
  int : Option Nat
  float : Option ℚ
  bool : Option Bool
deriving DecidableEq

/-- The response header map restricted to the six recognised
`x-ratelimit-*` names; `none` models an absent header. -/
structure HeaderMap where
  bucket : Option HVal
  global : Option HVal
  limit : Option HVal
  remaining : Option HVal
  reset : Option HVal
  resetAfter : Option HVal
deriving DecidableEq

/-- Model of `enum HeaderParseError` (payloads beyond the header name elided). -/
inductive HeaderParseError
  | noHeaders
  | headerMissing (name : String)
  | headerNotUtf8 (name : String)
  | parsingBoolText (name : String)
  | parsingFloatText (name : String)
  | parsingIntText (name : String)
deriving DecidableEq, Repr

/-- Model of `enum Headers`: the classified parse result. -/
inductive Headers
  | globalLimited (reset_after : Nat)
  | none
  | present (bucket : Option String) (global : Bool)
      (limit remaining reset reset_after : Nat)
deriving DecidableEq, Repr

/-- Model of `Headers::is_present`. -/
def Headers.is_present : Headers → Bool
  | .present _ _ _ _ _ _ => true
  | _ => false

/-- Model of `fn header_bool`. -/
def header_bool (v : Option HVal) (name : String) : Except HeaderParseError Bool :=
  match v with
  | Option.none => .error (.headerMissing name)
  | Option.some h =>
    match h.str with
    | Option.none => .error (.headerNotUtf8 name)
    | Option.some _ =>
      match h.bool with
      | Option.none => .error (.parsingBoolText name)
      | Option.some b => .ok b

/-- Model of `fn header_float`. -/
def header_float (v : Option HVal) (name : String) : Except HeaderParseError ℚ :=
  match v with
  | Option.none => .error (.headerMissing name)
  | Option.some h =>
    match h.str with
    | Option.none => .error (.headerNotUtf8 name)
    | Option.some _ =>
      match h.float with
      | Option.none => .error (.parsingFloatText name)
      | Option.some q => .ok q

/-- Model of `fn header_int`. -/
def header_int (v : Option HVal) (name : String) : Except HeaderParseError Nat :=
  match v with
  | Option.none => .error (.headerMissing name)
  | Option.some h =>
    match h.str with
    | Option.none => .error (.headerNotUtf8 name)
    | Option.some _ =>
      match h.int with
      | Option.none => .error (.parsingIntText name)
      | Option.some n => .ok n

/-- Model of `fn header_str`. -/
def header_str (v : Option HVal) (name : String) : Except HeaderParseError String :=
  match v with
  | Option.none => .error (.headerMissing name)
  | Option.some h =>
    match h.str with
    | Option.none => .error (.headerNotUtf8 name)
    | Option.some s => .ok s

/-- Model of `(value * 1000.).ceil() as u64`, idealised over rationals: the `as u64`
cast saturates negatives to 0, matching `Int.toNat`. -/
def ceilMs (q : ℚ) : Nat :=
  (q * 1000).ceil.toNat

/-- Model of `fn parse_map` (`headers.rs` lines 167-190): the bucket string and the
global flag are optional (their parse failures yield `None`/`false`), while
limit, remaining, reset and reset-after propagate their errors. -/
def parse_map (m : HeaderMap) : Except HeaderParseError Headers :=
  let bucket := (header_str m.bucket "x-ratelimit-bucket").toOption
  let global := ((header_bool m.global "x-ratelimit-global").toOption).getD false
  match header_int m.limit "x-ratelimit-limit" with
  | .error e => .error e
  | .ok limit =>
    match header_int m.remaining "x-ratelimit-remaining" with
    | .error e => .error e
    | .ok remaining =>
      match header_float m.reset "x-ratelimit-reset" with
      | .error e => .error e
      | .ok resetRaw =>
        match header_float m.resetAfter "x-ratelimit-reset-after" with
        | .error e => .error e
        | .ok resetAfterRaw =>
          .ok (Headers.present bucket global limit remaining (ceilMs resetRaw)
            (ceilMs resetAfterRaw))

/-- Model of `impl TryFrom<&HeaderMap<HeaderValue>> for Headers` (`headers.rs` lines
117-165): on a `parse_map` failure the error is kept when any of the bucket,
limit, remaining or reset headers is present (reset-after is not probed);
otherwise a present global flag yields `GlobalLimited` with reset-after
parsed as an integer, and an absent one yields `None`. -/
def tryFromHeaderMap (m : HeaderMap) : Except HeaderParseError Headers :=
  match parse_map m with
  | .ok v => .ok v
  | .error why =>
    if m.bucket.isSome || m.limit.isSome || m.remaining.isSome || m.reset.isSome then
      .error why
    else if m.global.isSome then
      match header_int m.resetAfter "x-ratelimit-reset-after" with
      | .ok ra => .ok (.globalLimited ra)
      | .error e => .error e
    else
      .ok .none

/-! ### Bucket snapshot (`http/src/ratelimiting/mod.rs`) -/

/-- Model of `pub struct Bucket` (all fields in integer milliseconds). -/
structure Bucket where
  limit : Nat
  remaining : Nat
  reset_after : Nat
  started_at : Nat
deriving DecidableEq

/-- Model of `Bucket::time_remaining` (`mod.rs` lines 51-61).  `now` is
`SystemTime::now().duration_since(UNIX_EPOCH).ok()` in milliseconds (`none`
when the system clock is before the Unix epoch, making the `?` return
`None`); the elapsed time since the `started_at` instant is the difference
of the two millisecond readings. -/
def time_remaining (b : Bucket) (now : Option Nat) : Option Nat :=
  match now with
  | Option.none => Option.none
  | Option.some sinceEpoch =>
    let elapsed := sinceEpoch - b.started_at
    if elapsed > b.reset_after then Option.none
    else Option.some (b.reset_after - elapsed)

/-! ### Cluster builder token normalisation (`gateway/src/cluster/builder.rs`) -/

/-- The characters of `"Bot "`; a Rust `String` is modelled as its character
sequence. -/
def botTag : List Char := ['B', 'o', 't', ' ']

/-- Model of `String::starts_with` on character sequences. -/
def startsWithTag : List Char → List Char → Bool
  | [], _ => true
  | _ :: _, [] => false
  | p :: ps, c :: cs => p == c && startsWithTag ps cs

/-- Model of `ClusterBuilder::_new` token handling (`builder.rs` lines 43-47):
`token.insert_str(0, "Bot ")` unless the token already starts with it. -/
def normalizeToken (t : List Char) : List Char :=
  if startsWithTag botTag t then t else botTag ++ t

/-! ### Concrete fixtures used by evaluations and witnesses -/

/-- A configuration admitting every event kind, with `message_cache_size = 1`
(the size the repository's tests use). -/
def testCfg : Config := { eventTypes := fun _ => true, messageCacheSize := 1 }

/-- A plain message payload with no reactions. -/
def msg0 : Message := { content := "", pinned := false, tts := false, reactions := [] }

/-! ### Claim theorems -/

/-- C1: the claim says the per-channel message map never exceeds
`message_cache_size` entries.  The eviction condition in `MessageCreate` is
`channel.len() > message_cache_size()` — checked before the insert — so the
map reaches `message_cache_size + 1` entries: with size 1, two `MessageCreate`
events in channel 2 (ids 10 then 20) leave 2 cached messages.  This evaluates
the code at that failing input. -/
theorem messageCreate_exceeds_cache_size :
    testCfg.messageCacheSize = 1 ∧
    (((update testCfg (.messageCreate 2 20 3 Option.none false msg0)
        (update testCfg (.messageCreate 2 10 3 Option.none false msg0)
          emptyCache)).messages 2).getD []).length = 2 := by
  decide

/-- C2: the claim says that after `GuildDelete(g)` no row in any table —
voice states included — references `g`.  `GuildDelete` removes the
guild→voice-state index entry but not the voice-state base rows: caching a
voice state for (guild 1, user 1) and then applying `GuildDelete(1)` removes
the guild row and the index entry, yet the voice-state row (1, 1) is still
present.  This evaluates the code at that failing input. -/
theorem guildDelete_leaves_voice_state :
    ((update testCfg (.guildDelete 1)
        (update testCfg (.voiceStateUpdate (Option.some 1) 1) emptyCache)).guilds 1 = false)
    ∧ ((update testCfg (.guildDelete 1)
        (update testCfg (.voiceStateUpdate (Option.some 1) 1) emptyCache)).voiceStateGuilds 1
        = Option.none)
    ∧ ((update testCfg (.guildDelete 1)
        (update testCfg (.voiceStateUpdate (Option.some 1) 1) emptyCache)).voiceStates (1, 1)
        = true) := by
  decide

/-- C8: `time_remaining` returns `None` when the system clock is before the
Unix epoch or the elapsed time since `started_at` exceeds `reset_after`, and
otherwise `Some (reset_after - (now - started_at))`. -/
theorem time_remaining_spec (b : Bucket) (n : Nat) :
    time_remaining b Option.none = Option.none
    ∧ (b.reset_after < n - b.started_at → time_remaining b (Option.some n) = Option.none)
    ∧ (n - b.started_at ≤ b.reset_after →
        time_remaining b (Option.some n) = Option.some (b.reset_after - (n - b.started_at))) := by
  refine ⟨rfl, fun h => ?_, fun h => ?_⟩
  · simp [time_remaining, h]
  · simp [time_remaining, Nat.not_lt.mpr h]

theorem time_remaining_spec_witness :
    time_remaining ⟨5, 3, 100, 1000⟩ (Option.some 1050) = Option.some (100 - (1050 - 1000)) :=
  (time_remaining_spec ⟨5, 3, 100, 1000⟩ 1050).2.2 (by decide)

/-- A sequence always starts with itself followed by anything. -/
lemma startsWithTag_append (p t : List Char) : startsWithTag p (p ++ t) = true := by
  induction p with
  | nil => rfl
  | cons c cs ih => simp [startsWithTag, ih]

/-- C9: the stored token always starts with `"Bot "`; an input already
carrying the tag is kept unchanged, any other input has it prepended, and
the normalisation is idempotent. -/
theorem normalizeToken_spec (t : List Char) :
    startsWithTag botTag (normalizeToken t) = true
    ∧ (startsWithTag botTag t = true → normalizeToken t = t)
    ∧ (startsWithTag botTag t = false → normalizeToken t = botTag ++ t)
    ∧ normalizeToken (normalizeToken t) = normalizeToken t := by
  by_cases h : startsWithTag botTag t
  · exact ⟨by simp [normalizeToken, h], fun _ => by simp [normalizeToken, h],
      fun hf => by simp [h] at hf, by simp [normalizeToken, h]⟩
  · have hf : startsWithTag botTag t = false := by simpa using h
    have happ := startsWithTag_append botTag t
    refine ⟨?_, fun ht => by simp [ht] at hf, fun _ => by simp [normalizeToken, hf], ?_⟩
    · simpa [normalizeToken, hf] using happ
    · simp [normalizeToken, hf, happ]

theorem normalizeToken_spec_witness :
    normalizeToken ['a'] = botTag ++ ['a']
    ∧ normalizeToken (botTag ++ ['a']) = botTag ++ ['a'] :=
  ⟨(normalizeToken_spec ['a']).2.2.1 (by decide),
    (normalizeToken_spec (botTag ++ ['a'])).2.1 (by decide)⟩

/-- Removing ids from an empty map leaves it empty. -/
lemma foldl_btRemove_nil {α : Type} (ids : List Nat) :
    ids.foldl (fun m i => btRemove (α := α) i m) [] = [] := by
  induction ids with
  | nil => rfl
  | cons i t ih => simpa [btRemove] using ih

/-- C10: applying a message or reaction event whose channel has no cached
message map materialises an empty per-channel map under that channel id (the
`entry().or_default()` pattern), even though no message is found or
modified. -/
theorem message_events_insert_empty_channel_map (cfg : Config) (s : CacheState) (c : Nat)
    (hnone : s.messages c = Option.none)
    (h1 : cfg.eventTypes .messageDelete = true)
    (h2 : cfg.eventTypes .messageDeleteBulk = true)
    (h3 : cfg.eventTypes .messageUpdate = true)
    (h4 : cfg.eventTypes .reactionAdd = true)
    (h5 : cfg.eventTypes .reactionRemove = true)
    (h6 : cfg.eventTypes .reactionRemoveAll = true)
    (mid e u : Nat) (ids : List Nat) (content : Option String) (pinned tts : Option Bool) :
    (update cfg (.messageDelete c mid) s).messages c = Option.some []
    ∧ (update cfg (.messageDeleteBulk c ids) s).messages c = Option.some []
    ∧ (update cfg (.messageUpdate c mid content pinned tts) s).messages c = Option.some []
    ∧ (update cfg (.reactionAdd c mid e u) s).messages c = Option.some []
    ∧ (update cfg (.reactionRemove c mid e u) s).messages c = Option.some []
    ∧ (update cfg (.reactionRemoveAll c mid) s).messages c = Option.some [] := by
  refine ⟨?_, ?_, ?_, ?_, ?_, ?_⟩ <;>
    simp [update, applyMessageDelete, applyMessageDeleteBulk, applyMessageUpdate,
      applyReactionAdd, applyReactionRemove, applyReactionRemoveAll, guard,
      h1, h2, h3, h4, h5, h6, hnone, updF, btRemove, btLookup, btModify,
      foldl_btRemove_nil]

theorem message_events_insert_empty_channel_map_witness :
    (update testCfg (.messageDelete 7 4) emptyCache).messages 7 = Option.some []
    ∧ (update testCfg (.messageDeleteBulk 7 [4, 9]) emptyCache).messages 7 = Option.some []
    ∧ (update testCfg (.messageUpdate 7 4 Option.none Option.none Option.none)
        emptyCache).messages 7 = Option.some []
    ∧ (update testCfg (.reactionAdd 7 4 0 1) emptyCache).messages 7 = Option.some []
    ∧ (update testCfg (.reactionRemove 7 4 0 1) emptyCache).messages 7 = Option.some []
    ∧ (update testCfg (.reactionRemoveAll 7 4) emptyCache).messages 7 = Option.some [] :=
  message_events_insert_empty_channel_map testCfg emptyCache 7 rfl rfl rfl rfl rfl rfl rfl
    4 0 1 [4, 9] Option.none Option.none Option.none

/-- An element never survives its own set removal. -/
lemma not_mem_setRemove (x : Nat) (l : List Nat) : x ∉ setRemove x l := by
  simp [setRemove]

/-- C3: `MemberRemove(g, u)` removes the member row and drops `u` from the
guild→members index; the user row for `u` is removed exactly when its guild
set holds no guild other than `g`, and otherwise survives with `g` removed. -/
theorem memberRemove_spec (cfg : Config) (s : CacheState) (g u : Nat)
    (hen : cfg.eventTypes .memberRemove = true) :
    ((update cfg (.memberRemove g u) s).members (g, u) = false)
    ∧ ((update cfg (.memberRemove g u) s).guildMembers g =
        (s.guildMembers g).map (setRemove u))
    ∧ (∀ ms, (update cfg (.memberRemove g u) s).guildMembers g = Option.some ms →
        u ∉ ms)
    ∧ (s.users u = Option.none → (update cfg (.memberRemove g u) s).users u = Option.none)
    ∧ (∀ gs, s.users u = Option.some gs →
        ((setRemove g gs).isEmpty = true →
          (update cfg (.memberRemove g u) s).users u = Option.none)
        ∧ ((setRemove g gs).isEmpty = false →
          (update cfg (.memberRemove g u) s).users u = Option.some (setRemove g gs))) := by
  cases hgm : s.guildMembers g with
  | none =>
    cases hu : s.users u with
    | none =>
      refine ⟨?_, ?_, ?_, ?_, ?_⟩ <;>
        simp [update, applyMemberRemove, guard, hen, hgm, hu, updF, updF2, not_mem_setRemove]
    | some gs =>
      by_cases hemp : setRemove g gs = [] <;>
        refine ⟨?_, ?_, ?_, ?_, ?_⟩ <;>
          simp [update, applyMemberRemove, guard, hen, hgm, hu, hemp, updF, updF2,
            not_mem_setRemove]
  | some ms =>
    cases hu : s.users u with
    | none =>
      refine ⟨?_, ?_, ?_, ?_, ?_⟩ <;>
        simp [update, applyMemberRemove, guard, hen, hgm, hu, updF, updF2, not_mem_setRemove]
    | some gs =>
      by_cases hemp : setRemove g gs = [] <;>
        refine ⟨?_, ?_, ?_, ?_, ?_⟩ <;>
          simp [update, applyMemberRemove, guard, hen, hgm, hu, hemp, updF, updF2,
            not_mem_setRemove]

/-- A cache holding member (5, 1), its index entry, and user 1 known in
guild 5 only. -/
def memberState : CacheState :=
  { emptyCache with
      members := updF2 (5, 1) true emptyCache.members,
      guildMembers := updF 5 (Option.some [1]) emptyCache.guildMembers,
      users := updF 1 (Option.some [5]) emptyCache.users }

theorem memberRemove_spec_witness :
    (update testCfg (.memberRemove 5 1) memberState).members (5, 1) = false
    ∧ (update testCfg (.memberRemove 5 1) memberState).users 1 = Option.none := by
  have h := memberRemove_spec testCfg memberState 5 1 rfl
  exact ⟨h.1, (h.2.2.2.2 [5] (by decide)).1 (by decide)⟩

/-- Adding a reaction leaves entries with other emojis untouched. -/
lemma reactionsAdd_cons_ne (cu : Option Nat) (u e : Nat) (r : MessageReaction)
    (t : List MessageReaction) (h : (r.emoji == e) = false) :
    reactionsAdd cu u e (r :: t) = r :: reactionsAdd cu u e t := by
  by_cases ht : t.any (fun x => x.emoji == e)
  · simp [reactionsAdd, h, ht, modifyFirst]
  · simp [reactionsAdd, h, ht]

/-- Removing a reaction leaves entries with other emojis untouched. -/
lemma reactionsRemove_cons_ne (cu : Option Nat) (u e : Nat) (r : MessageReaction)
    (t : List MessageReaction) (h : (r.emoji == e) = false) :
    reactionsRemove cu u e (r :: t) = r :: reactionsRemove cu u e t := by
  cases hf : t.find? (fun x => x.emoji == e) with
  | none => simp [reactionsRemove, List.find?_cons, h, hf]
  | some x =>
    by_cases hc : x.count > 1 <;>
      simp [reactionsRemove, List.find?_cons, h, hf, hc, modifyFirst, List.filter_cons]

/-- C4 (amended): a `ReactionAdd` followed by a `ReactionRemove` of the same
emoji by the same user restores the reactions list exactly, provided every
entry carries a count of at least 1 (invariant 4 of the spec) and no entry
for the emoji already has the self-reacted flag set while the acting user is
the current user.  In particular every count returns to its prior value and
never underflows. -/
theorem reactions_roundtrip (cu : Option Nat) (u e : Nat) (l : List MessageReaction)
    (hcount : ∀ r ∈ l, 1 ≤ r.count)
    (hme : ∀ r ∈ l, r.emoji = e → ¬(r.me = true ∧ cu = Option.some u)) :
    reactionsRemove cu u e (reactionsAdd cu u e l) = l := by
  induction l with
  | nil =>
    simp [reactionsAdd, reactionsRemove, List.find?, List.filter]
  | cons r t ih =>
    by_cases hre : r.emoji = e
    · have hp : (r.emoji == e) = true := by simp [hre]
      have h1 : 1 ≤ r.count := hcount r (by simp)
      have hgt : r.count + 1 > 1 := by omega
      by_cases hcu : cu = Option.some u
      · have hrm : r.me = false := by
          cases hb : r.me with
          | false => rfl
          | true => exact absurd ⟨hb, hcu⟩ (hme r (by simp) hre)
        simp only [reactionsAdd, reactionsRemove, hp, modifyFirst, List.any_cons,
          Bool.true_or, if_true, List.find?_cons, hrm, hcu]
        simp [hgt, hrm]
        rw [← hrm]
      · simp [reactionsAdd, reactionsRemove, hp, modifyFirst, List.find?_cons, hcu, hgt]
    · have h' : (r.emoji == e) = false := by simp [hre]
      rw [reactionsAdd_cons_ne cu u e r t h',
        reactionsRemove_cons_ne cu u e r (reactionsAdd cu u e t) h',
        ih (fun x hx => hcount x (List.mem_cons_of_mem r hx))
          (fun x hx => hme x (List.mem_cons_of_mem r hx))]

/-- C4 counterexample: when the current user (id 5) re-adds a reaction whose
entry already has the self-reacted flag set and then removes it, the flag
ends cleared instead of returning to its prior value, so the round trip does
not restore the pre-add state. -/
theorem reactions_roundtrip_cex :
    reactionsRemove (Option.some 5) 5 0 (reactionsAdd (Option.some 5) 5 0
      [{ count := 1, emoji := 0, me := true }])
      ≠ [{ count := 1, emoji := 0, me := true }] := by
  decide

theorem reactions_roundtrip_witness :
    reactionsRemove (Option.some 5) 5 0 (reactionsAdd (Option.some 5) 5 0
      [{ count := 2, emoji := 0, me := false }, { count := 1, emoji := 3, me := true }])
      = [{ count := 2, emoji := 0, me := false }, { count := 1, emoji := 3, me := true }] :=
  reactions_roundtrip (Option.some 5) 5 0 _ (by decide) (by decide)

/-- The key list of the empty map. -/
lemma btKeys_nil {α : Type} : btKeys ([] : List (Nat × α)) = [] := rfl

/-- The key list of a non-empty map. -/
lemma btKeys_cons {α : Type} (p : Nat × α) (t : List (Nat × α)) :
    btKeys (p :: t) = p.1 :: btKeys t := rfl

/-- Key membership after an ordered insert. -/
lemma btKeys_btInsert {α : Type} (k : Nat) (v : α) (l : List (Nat × α)) (x : Nat) :
    x ∈ btKeys (btInsert k v l) ↔ x = k ∨ x ∈ btKeys l := by
  induction l with
  | nil => simp [btInsert, btKeys_nil, btKeys_cons]
  | cons p t ih =>
    obtain ⟨k', v'⟩ := p
    by_cases h1 : k < k'
    · simp [btInsert, h1, btKeys_cons]
    · by_cases h2 : k = k'
      · subst h2
        simp [btInsert, h1, btKeys_cons]
      · simp only [btInsert, if_neg h1, if_neg h2, btKeys_cons, List.mem_cons] at ih ⊢
        tauto

/-- Removal keeps every key other than the removed one. -/
lemma mem_btKeys_btRemove_of_ne {α : Type} (k x : Nat) (l : List (Nat × α))
    (hx : x ∈ btKeys l) (hne : x ≠ k) : x ∈ btKeys (btRemove k l) := by
  induction l with
  | nil => exact hx
  | cons p t ih =>
    obtain ⟨k', v'⟩ := p
    rw [btKeys_cons, List.mem_cons] at hx
    by_cases h1 : k = k'
    · subst h1
      rcases hx with rfl | hx
      · exact absurd rfl hne
      · have hh : btRemove k ((k, v') :: t) = t := by simp [btRemove]
        rw [hh]
        exact hx
    · rcases hx with rfl | hx
      · simp [btRemove, h1, btKeys_cons]
      · simp [btRemove, h1, btKeys_cons, List.mem_cons, ih hx]

/-- With duplicate-free keys the removed key is gone. -/
lemma not_mem_btKeys_btRemove {α : Type} (k : Nat) (l : List (Nat × α))
    (hnd : (btKeys l).Nodup) : k ∉ btKeys (btRemove k l) := by
  induction l with
  | nil => simp [btRemove, btKeys_nil]
  | cons p t ih =>
    obtain ⟨k', v'⟩ := p
    rw [btKeys_cons] at hnd
    by_cases h1 : k = k'
    · subst h1
      intro hk
      rw [btRemove, if_pos rfl] at hk
      exact (List.nodup_cons.mp hnd).1 hk
    · intro hk
      rw [btRemove, if_neg h1, btKeys_cons, List.mem_cons] at hk
      rcases hk with rfl | hk
      · exact h1 rfl
      · exact ih (List.nodup_cons.mp hnd).2 hk

/-- In a strictly increasing list the last element exists and bounds all. -/
lemma chain_lt_getLast_max (a : Nat) (l : List Nat)
    (h : List.Chain' (· < ·) (a :: l)) :
    ∃ m, (a :: l).getLast? = some m ∧ ∀ x ∈ a :: l, x ≤ m := by
  induction l generalizing a with
  | nil => exact ⟨a, rfl, by simp⟩
  | cons b t ih =>
    have hab : a < b := (List.chain'_cons.mp h).1
    obtain ⟨m, hm, hle⟩ := ih b (List.chain'_cons.mp h).2
    refine ⟨m, ?_, ?_⟩
    · simpa [List.getLast?_cons_cons] using hm
    · intro x hx
      rcases List.mem_cons.mp hx with rfl | hx
      · exact le_trans (le_of_lt hab) (hle b (by simp))
      · exact hle x hx

/-- Strictly increasing lists have no duplicates. -/
lemma chain_lt_nodup (l : List Nat) (h : List.Chain' (· < ·) l) : l.Nodup := by
  have hp : l.Pairwise (· < ·) := List.chain'_iff_pairwise.mp h
  exact hp.imp Nat.ne_of_lt

/-- C5 (amended): when a `MessageCreate` hits a channel whose key-sorted map
holds strictly more than `message_cache_size` entries, the entry evicted
before the insert is the one with the greatest message id, every entry with a
smaller id is preserved, and the new message is inserted. -/
theorem messageCreate_evicts_greatest (cfg : Config) (s : CacheState)
    (c mid author : Nat) (gid : Option Nat) (hasMember : Bool) (msg : Message)
    (chm : List (Nat × Message))
    (hen : cfg.eventTypes .messageCreate = true)
    (hc : s.messages c = Option.some chm)
    (hlen : chm.length > cfg.messageCacheSize)
    (hsorted : List.Chain' (· < ·) (btKeys chm)) :
    ∃ kmax, (btKeys chm).getLast? = Option.some kmax
      ∧ (∀ x ∈ btKeys chm, x ≤ kmax)
      ∧ ((update cfg (.messageCreate c mid author gid hasMember msg) s).messages c
          = Option.some (btInsert mid msg (btRemove kmax chm)))
      ∧ (∀ x ∈ btKeys chm, x ≠ kmax →
          x ∈ btKeys (((update cfg (.messageCreate c mid author gid hasMember msg) s).messages
            c).getD []))
      ∧ (mid ≠ kmax →
          kmax ∉ btKeys (((update cfg (.messageCreate c mid author gid hasMember msg) s).messages
            c).getD []))
      ∧ mid ∈ btKeys (((update cfg (.messageCreate c mid author gid hasMember msg) s).messages
            c).getD []) := by
  cases chm with
  | nil => simp at hlen
  | cons p rest =>
    obtain ⟨kmax, hm, hmax⟩ := chain_lt_getLast_max p.1 (btKeys rest)
        (by simpa [btKeys_cons] using hsorted)
    have hm' : (btKeys (p :: rest)).getLast? = Option.some kmax := by
      simpa [btKeys_cons] using hm
    have hlt : cfg.messageCacheSize < rest.length + 1 := by simpa using hlen
    have hres : (update cfg (.messageCreate c mid author gid hasMember msg) s).messages c
        = Option.some (btInsert mid msg (btRemove kmax (p :: rest))) := by
      cases hasMember <;> cases gid <;>
        simp [update, applyMessageCreate, guard, hen, hc, hlt, hm', updF,
          cache_partial_member]
    have hmax' : ∀ x ∈ btKeys (p :: rest), x ≤ kmax := by
      intro x hx
      exact hmax x (by simpa [btKeys_cons] using hx)
    have hnd : (btKeys (p :: rest)).Nodup := chain_lt_nodup _ hsorted
    refine ⟨kmax, hm', hmax', hres, ?_, ?_, ?_⟩
    · intro x hx hne
      rw [hres]
      exact (btKeys_btInsert mid msg _ x).mpr
        (Or.inr (mem_btKeys_btRemove_of_ne kmax x _ hx hne))
    · intro hne
      rw [hres]
      intro hk
      rcases (btKeys_btInsert mid msg _ kmax).mp hk with h | h
      · exact hne h.symm
      · exact not_mem_btKeys_btRemove kmax _ hnd h
    · rw [hres]
      exact (btKeys_btInsert mid msg _ mid).mpr (Or.inl rfl)

/-- C5 counterexample: with `message_cache_size = 1` the channel map after
one `MessageCreate` holds exactly one entry — it is full — yet the next
`MessageCreate` evicts nothing: the greatest id (10, the only entry) is
retained alongside the new id 20. -/
theorem messageCreate_full_no_evict_cex :
    ((update testCfg (.messageCreate 2 20 3 Option.none false msg0)
        (update testCfg (.messageCreate 2 10 3 Option.none false msg0) emptyCache)).messages 2)
      = Option.some [(10, msg0), (20, msg0)] := by
  decide

/-- A cache whose channel 2 holds two messages, above the size-1 capacity. -/
def overFullState : CacheState :=
  { emptyCache with
      messages := updF 2 (Option.some [(10, msg0), (20, msg0)]) emptyCache.messages }

theorem messageCreate_evicts_greatest_witness :
    ∃ kmax, (btKeys [(10, msg0), (20, msg0)]).getLast? = Option.some kmax
      ∧ (∀ x ∈ btKeys [(10, msg0), (20, msg0)], x ≤ kmax)
      ∧ ((update testCfg (.messageCreate 2 30 3 Option.none false msg0)
          overFullState).messages 2
          = Option.some (btInsert 30 msg0 (btRemove kmax [(10, msg0), (20, msg0)])))
      ∧ (∀ x ∈ btKeys [(10, msg0), (20, msg0)], x ≠ kmax →
          x ∈ btKeys (((update testCfg (.messageCreate 2 30 3 Option.none false msg0)
            overFullState).messages 2).getD []))
      ∧ (30 ≠ kmax →
          kmax ∉ btKeys (((update testCfg (.messageCreate 2 30 3 Option.none false msg0)
            overFullState).messages 2).getD []))
      ∧ 30 ∈ btKeys (((update testCfg (.messageCreate 2 30 3 Option.none false msg0)
            overFullState).messages 2).getD []) :=
  messageCreate_evicts_greatest testCfg overFullState 2 30 3 Option.none false msg0
    [(10, msg0), (20, msg0)] rfl (by decide) (by decide)
    (by simp [btKeys_cons, btKeys_nil])

/-- Parsing fails at the limit header whenever it is absent. -/
lemma parse_map_error_of_limit_none (m : HeaderMap) (h : m.limit = Option.none) :
    parse_map m = .error (.headerMissing "x-ratelimit-limit") := by
  simp [parse_map, header_int, h]

/-- A successful parse always yields the `present` constructor. -/
lemma parse_map_ok_is_present (m : HeaderMap) (v : Headers) (h : parse_map m = .ok v) :
    v.is_present = true := by
  unfold parse_map at h
  cases h1 : header_int m.limit "x-ratelimit-limit" with
  | error e => simp [h1] at h
  | ok limit =>
    cases h2 : header_int m.remaining "x-ratelimit-remaining" with
    | error e => simp [h1, h2] at h
    | ok remaining =>
      cases h3 : header_float m.reset "x-ratelimit-reset" with
      | error e => simp [h1, h2, h3] at h
      | ok resetRaw =>
        cases h4 : header_float m.resetAfter "x-ratelimit-reset-after" with
        | error e => simp [h1, h2, h3, h4] at h
        | ok resetAfterRaw =>
          simp [h1, h2, h3, h4] at h
          rw [← h]
          rfl

/-- C6 (amended): classification ignores `x-ratelimit-reset-after` when
deciding between error, `GlobalLimited` and `None`: a full parse yields
`Present`; a failed parse yields the categorised error exactly when one of
the bucket, limit, remaining or reset headers is present; with those four
absent, a present global flag yields `GlobalLimited` when reset-after parses
as an integer (its parse error is propagated otherwise), and an absent
global flag yields `None`. -/
theorem tryFrom_classification (m : HeaderMap) :
    (∀ v, parse_map m = .ok v → tryFromHeaderMap m = .ok v ∧ v.is_present = true)
    ∧ (∀ er, parse_map m = .error er →
        (m.bucket.isSome || m.limit.isSome || m.remaining.isSome || m.reset.isSome) = true →
        tryFromHeaderMap m = .error er)
    ∧ ((m.bucket.isSome || m.limit.isSome || m.remaining.isSome || m.reset.isSome) = false →
        m.global.isSome = true →
        ((∀ ra, header_int m.resetAfter "x-ratelimit-reset-after" = .ok ra →
            tryFromHeaderMap m = .ok (.globalLimited ra))
         ∧ (∀ er, header_int m.resetAfter "x-ratelimit-reset-after" = .error er →
            tryFromHeaderMap m = .error er)))
    ∧ ((m.bucket.isSome || m.limit.isSome || m.remaining.isSome || m.reset.isSome) = false →
        m.global.isSome = false → tryFromHeaderMap m = .ok .none) := by
  refine ⟨?_, ?_, ?_, ?_⟩
  · intro v hv
    exact ⟨by simp [tryFromHeaderMap, hv], parse_map_ok_is_present m v hv⟩
  · intro er her hprobe
    simp [tryFromHeaderMap, her, hprobe]
  · intro hprobe hglobal
    have hlim : m.limit = Option.none := by
      rcases Bool.or_eq_false_iff.mp hprobe with ⟨h1, h2⟩
      rcases Bool.or_eq_false_iff.mp h1 with ⟨h3, h4⟩
      rcases Bool.or_eq_false_iff.mp h3 with ⟨h5, h6⟩
      exact Option.not_isSome_iff_eq_none.mp (by simp [h6])
    have herr := parse_map_error_of_limit_none m hlim
    constructor
    · intro ra hra
      simp [tryFromHeaderMap, herr, hprobe, hglobal, hra]
    · intro er her
      simp [tryFromHeaderMap, herr, hprobe, hglobal, her]
  · intro hprobe hglobal
    have hlim : m.limit = Option.none := by
      rcases Bool.or_eq_false_iff.mp hprobe with ⟨h1, h2⟩
      rcases Bool.or_eq_false_iff.mp h1 with ⟨h3, h4⟩
      rcases Bool.or_eq_false_iff.mp h3 with ⟨h5, h6⟩
      exact Option.not_isSome_iff_eq_none.mp (by simp [h6])
    have herr := parse_map_error_of_limit_none m hlim
    simp [tryFromHeaderMap, herr, hprobe, hglobal]

/-- A header value parseable as the integer and rational 60. -/
def hval60 : HVal :=
  { str := Option.some "60", int := Option.some 60, float := Option.some 60,
    bool := Option.none }

/-- A header map carrying only `x-ratelimit-reset-after`. -/
def resetAfterOnlyMap : HeaderMap :=
  { bucket := Option.none, global := Option.none, limit := Option.none,
    remaining := Option.none, reset := Option.none,
    resetAfter := Option.some hval60 }

/-- C6 counterexample: a map holding only the per-bucket header
`x-ratelimit-reset-after` fails to parse, yet classification yields `None`
rather than a categorised error, because reset-after is missing from the
probe list. -/
theorem tryFrom_resetAfter_only_cex :
    resetAfterOnlyMap.resetAfter.isSome = true
    ∧ parse_map resetAfterOnlyMap = .error (.headerMissing "x-ratelimit-limit")
    ∧ tryFromHeaderMap resetAfterOnlyMap = .ok Headers.none := by
  refine ⟨rfl, ?_, ?_⟩ <;> rfl

/-- A header value parseable as the integer `n`. -/
def hvalInt (s : String) (n : Nat) : HVal :=
  { str := Option.some s, int := Option.some n, float := Option.none, bool := Option.none }

/-- A header value parseable as the rational `q`. -/
def hvalFloat (s : String) (q : Rat) : HVal :=
  { str := Option.some s, int := Option.none, float := Option.some q, bool := Option.none }

/-- A header map with all four required numeric headers parseable. -/
def presentHeaderMap : HeaderMap :=
  { bucket := Option.none, global := Option.none,
    limit := Option.some (hvalInt "5" 5),
    remaining := Option.some (hvalInt "3" 3),
    reset := Option.some (hvalFloat "2" 2),
    resetAfter := Option.some (hvalFloat "1" 1) }

theorem tryFrom_classification_witness :
    tryFromHeaderMap presentHeaderMap
      = .ok (Headers.present Option.none false 5 3 2000 1000)
    ∧ (Headers.present Option.none false 5 3 2000 1000).is_present = true := by
  have h2 : ceilMs 2 = 2000 := by norm_num [ceilMs, Rat.ceil]; rfl
  have h1 : ceilMs 1 = 1000 := by norm_num [ceilMs, Rat.ceil]; rfl
  exact (tryFrom_classification presentHeaderMap).1 _
    (by simp [parse_map, presentHeaderMap, hvalInt, hvalFloat, header_int, header_float,
      header_str, header_bool, Except.toOption, h2, h1])

end Twilight
